import Mathlib

/-!
Verification of the miRNA seed-matching counter for miRanda output
(`count_perfect_complementary_seed_miranda.py`).

Lines and sequences are modelled as `List Char`.  The two bounded
while-loops of the source (the dual-cursor alignment scan and the
line scanner of `main`) are modelled with an explicit fuel argument;
the fuel actually supplied is the loop's own bound (the sum of the
cursor ranges, resp. the number of input lines), so the modelled
functions compute exactly what the source computes.
-/

/-- The apostrophe character, used by the `5'` / `3'` orientation markers. -/
def apos : Char := Char.ofNat 39

/-- Python `\s` / `str.strip` whitespace (ASCII range). -/
def isPySpace (c : Char) : Bool :=
  c == ' ' || c == '\t' || c == '\n' || c == '\r' || c == '\x0b' || c == '\x0c'

/-- Python `str.strip()`: drop whitespace from both ends. -/
def pyStrip (s : List Char) : List Char :=
  ((s.dropWhile isPySpace).reverse.dropWhile isPySpace).reverse

/-- `hasPre pre s` is Python `s.startswith(pre)`. -/
def hasPre : List Char → List Char → Bool
  | [], _ => true
  | _ :: _, [] => false
  | a :: as, b :: bs => a == b && hasPre as bs

/-- `containsSub pat s` is Python `pat in s` (substring containment). -/
def containsSub (pat : List Char) : List Char → Bool
  | [] => hasPre pat []
  | c :: rest => hasPre pat (c :: rest) || containsSub pat rest

/-- `re.sub(r'^<label>\s*', '', s)`: strip a leading label plus following
whitespace, if present. -/
def dropLabel (label : List Char) (s : List Char) : List Char :=
  if hasPre label s then (s.drop label.length).dropWhile isPySpace else s

/-- `re.sub(r'^[35]\'\s*', '', s)`: strip a leading `3'` or `5'`
orientation marker plus following whitespace. -/
def dropOrientHead : List Char → List Char
  | c1 :: c2 :: rest =>
    if (c1 == '3' || c1 == '5') && c2 == apos then rest.dropWhile isPySpace
    else c1 :: c2 :: rest
  | s => s

/-- `re.sub(r'\s*[35]\'$', '', s)`: strip a trailing `3'` or `5'`
orientation marker plus preceding whitespace. -/
def dropOrientTail (s : List Char) : List Char :=
  match s.reverse with
  | c2 :: c1 :: rest =>
    if c2 == apos && (c1 == '3' || c1 == '5') then (rest.dropWhile isPySpace).reverse
    else s
  | _ => s

/-- Uppercase with `T` replaced by `U`, as done at the head of
`is_perfect_match` / `is_wobble_pair` (`base.upper().replace('T', 'U')`). -/
def toRNA (base : Char) : Char :=
  let b := base.toUpper
  if b == 'T' then 'U' else b

/-- The perfect complementary pairs of `is_perfect_match`. -/
def complementary_pairs : List (Char × Char) :=
  [('A', 'U'), ('U', 'A'), ('C', 'G'), ('G', 'C')]

/-- `is_perfect_match` from the source: case-folded, `T`≡`U`, membership
in the perfect complementary pairs. -/
def is_perfect_match (base1 base2 : Char) : Bool :=
  complementary_pairs.contains (toRNA base1, toRNA base2)

/-- The wobble pairs of `is_wobble_pair`. -/
def wobble_pair_list : List (Char × Char) :=
  [('G', 'U'), ('U', 'G')]

/-- `is_wobble_pair` from the source: case-folded, `T`≡`U`, membership
in the wobble pairs. -/
def is_wobble_pair (base1 base2 : Char) : Bool :=
  wobble_pair_list.contains (toRNA base1, toRNA base2)

/-- Label `Query:`. -/
def queryLabel : List Char := "Query:".toList

/-- Label `Ref:`. -/
def refLabel : List Char := "Ref:".toList

/-- The sequence-extraction pipeline of `process_alignment` before
reversal: strip the label, `strip()`, strip leading and trailing
orientation markers. -/
def normSeq (label : List Char) (line : List Char) : List Char :=
  dropOrientTail (dropOrientHead (pyStrip (dropLabel label line)))

example : normSeq queryLabel ("Query: 3".toList ++ [apos] ++ " ACGUACGUAC 5".toList ++ [apos]) = "ACGUACGUAC".toList := by decide

/-- The dual-cursor `while` loop of `process_alignment`, with explicit
fuel.  Each iteration of the source loop advances `i`, `j`, or both, so
the loop runs at most `len(query_seq) + len(ref_seq)` iterations; with
that much fuel the model computes exactly what the source loop does.
State: remaining query suffix, remaining ref suffix, `miRNA_pos`,
`perfect_matches`, `wobble_pairs`. -/
def scanLoopF : Nat → List Char → List Char → Nat → Nat → Nat → Nat × Nat
  | 0, _, _, _, p, w => (p, w)
  | _ + 1, [], _, _, p, w => (p, w)
  | _ + 1, _ :: _, [], _, p, w => (p, w)
  | f + 1, cq :: q, cr :: r, pos, p, w =>
    if cq == ' ' then scanLoopF f q (cr :: r) pos p w
    else if cr == ' ' then scanLoopF f (cq :: q) r pos p w
    else
      let pos1 := if cq != '-' then pos + 1 else pos
      if 2 ≤ pos1 ∧ pos1 ≤ 8 then
        if cq == '-' || cq == ' ' then scanLoopF f q r pos1 p w
        else if cr == '-' || cr == ' ' then scanLoopF f q r pos1 p w
        else if is_perfect_match cq.toUpper cr.toUpper then scanLoopF f q r pos1 (p + 1) w
        else if is_wobble_pair cq.toUpper cr.toUpper then scanLoopF f q r pos1 p (w + 1)
        else scanLoopF f q r pos1 p w
      else scanLoopF f q r pos1 p w

/-- `process_alignment` from the source: normalize both lines, reverse
them to 5'→3' order, and run the dual-cursor scan from position 0 with
zero counters. -/
def process_alignment (query_line ref_line : List Char) : Nat × Nat :=
  let query_seq := (normSeq queryLabel query_line).reverse
  let ref_seq := (normSeq refLabel ref_line).reverse
  scanLoopF (query_seq.length + ref_seq.length) query_seq ref_seq 0 0 0

example :
    process_alignment
      ("Query: 3".toList ++ [apos] ++ " ACGUACGUAC 5".toList ++ [apos])
      ("Ref: 5".toList ++ [apos] ++ " UGCAUGCAUG 3".toList ++ [apos]) = (7, 0) := by
  decide

example : process_alignment "AAAAAAAA-A".toList "UUUUUUUUUU".toList = (7, 0) := by decide
example : process_alignment "UUUUUUUUUU".toList "AAAAAAAA-A".toList = (6, 0) := by decide

/-- The record marker `Read Sequence:`. -/
def rsMarker : List Char := "Read Sequence:".toList

/-- The forward block marker. -/
def fwdMarker : List Char := "Forward:".toList

/-- The reverse block marker. -/
def revMarker : List Char := "Reverse:".toList

/-- Scan forward for the first line satisfying `p`; return it together
with the lines after it.  Models `while i < len(lines) and not p(lines[i]): i += 1`
followed by capturing `lines[i]` and `i += 1` (`none` = the scan ran off
the end of the input and the source loop `break`s). -/
def findLine (p : List Char → Bool) : List (List Char) → Option (List Char × List (List Char))
  | [] => none
  | l :: ls => if p l then some (l, ls) else findLine p ls

/-- `re.search(r'Read Sequence:(\S+)', line)`: leftmost occurrence of the
literal marker followed by at least one non-whitespace character; the
captured group is the maximal non-whitespace run. -/
def searchReadSeq : List Char → Option (List Char)
  | [] => none
  | c :: rest =>
    if hasPre rsMarker (c :: rest) then
      let tok := ((c :: rest).drop rsMarker.length).takeWhile (fun ch => !(isPySpace ch))
      if tok.isEmpty then searchReadSeq rest else some tok
    else searchReadSeq rest

/-- Backtracking for `gene=(\S+)\((\d+) nt\)` at a fixed start: `s` is the
text after `gene=`; try the greedy `\S+` capture of length `n`, shrinking
until `\(  \d+  ' nt)'` matches the remainder. -/
def tryGeneSplit (s : List Char) : Nat → Option (List Char × List Char)
  | 0 => none
  | n + 1 =>
    match s.drop (n + 1) with
    | '(' :: t =>
      let ds := t.takeWhile Char.isDigit
      if ds.isEmpty then tryGeneSplit s n
      else if hasPre " nt)".toList (t.drop ds.length) then some (s.take (n + 1), ds)
      else tryGeneSplit s n
    | _ => tryGeneSplit s n

/-- `re.search(r'gene=(\S+)\((\d+) nt\)', line)`: leftmost-then-greedy
search; returns (gene name, gene length digits). -/
def searchGene : List Char → Option (List Char × List Char)
  | [] => none
  | c :: rest =>
    if hasPre "gene=".toList (c :: rest) then
      let s := (c :: rest).drop 5
      match tryGeneSplit s (s.takeWhile (fun ch => !(isPySpace ch))).length with
      | some r => some r
      | none => searchGene rest
    else searchGene rest

/-- Decimal digits of a natural number, for the output f-string. -/
def natRepr (n : Nat) : List Char := (toString n).toList

/-- The output f-string of `main`:
`Read Sequence:{transcript} gene={gene_name}({gene_length} nt) - Complementary nucleotides in Seed: {perfect_matches} (Wobble pairings in Seed: {wobble_pairs})`. -/
def formatLine (transcript gene_name gene_length : List Char) (p w : Nat) : List Char :=
  "Read Sequence:".toList ++ transcript ++ " gene=".toList ++ gene_name ++ "(".toList
    ++ gene_length ++ " nt) - Complementary nucleotides in Seed: ".toList ++ natRepr p
    ++ " (Wobble pairings in Seed: ".toList ++ natRepr w ++ ")".toList

/-- Does this line's stripped text start with `Query:`? -/
def queryHere (l : List Char) : Bool := hasPre queryLabel (pyStrip l)

/-- Does this line's stripped text start with `Ref:`? -/
def refHere (l : List Char) : Bool := hasPre refLabel (pyStrip l)

/-- The inner `while` of `main` (one selected record), with explicit fuel:
walk lines until the next `Read Sequence:` line (returned as the second
component) or end of input; at a line containing `Forward:` or `Reverse:`
scan for the `Query:` line and then the `Ref:` line (possibly running past
record boundaries, as the source scans do), count the alignment, and emit
one formatted output line.  If either scan runs off the end of the input,
the source `break`s with the line index at end of input, so no output is
emitted for the incomplete block and no lines remain. -/
def processRecordF : Nat → List Char → List Char → List Char → List (List Char) →
    List (List Char) × List (List Char)
  | 0, _, _, _, _ => ([], [])
  | _ + 1, _, _, _, [] => ([], [])
  | fuel + 1, transcript, gname, glen, line :: rest =>
    if hasPre rsMarker line then ([], line :: rest)
    else if containsSub fwdMarker line || containsSub revMarker line then
      match findLine queryHere (line :: rest) with
      | none => ([], [])
      | some (qline, rest1) =>
        match findLine refHere rest1 with
        | none => ([], [])
        | some (rline, rest2) =>
          let pw := process_alignment (pyStrip qline) (pyStrip rline)
          let next := processRecordF fuel transcript gname glen rest2
          (formatLine transcript gname glen pw.1 pw.2 :: next.1, next.2)
    else processRecordF fuel transcript gname glen rest

/-- The outer `while` of `main`, with explicit fuel: at each
`Read Sequence:` line extract the transcript id; if it is selected,
extract the optional gene fields and process the record; otherwise move
one line forward. -/
def mainLoopF : Nat → (List Char → Bool) → List (List Char) → List (List Char)
  | 0, _, _ => []
  | _ + 1, _, [] => []
  | fuel + 1, sel, line :: rest =>
    if hasPre rsMarker line then
      match searchReadSeq line with
      | some transcript =>
        if sel transcript then
          let gm := searchGene line
          let gname := match gm with | some g => g.1 | none => []
          let glen := match gm with | some g => g.2 | none => []
          let pr := processRecordF (rest.length + 1) transcript gname glen rest
          pr.1 ++ mainLoopF fuel sel pr.2
        else mainLoopF fuel sel rest
      | none => mainLoopF fuel sel rest
    else mainLoopF fuel sel rest

/-- `main` from the source, as a function from the selected-transcript
membership test and the report's lines to the list of printed output
lines.  The outer loop advances the line index by at least one per
iteration, so `lines.length + 1` fuel covers the whole scan. -/
def main_scan (sel : List Char → Bool) (lines : List (List Char)) : List (List Char) :=
  mainLoopF (lines.length + 1) sel lines

/-- Report header line for transcript `tx1`. -/
def rsLineTx1 : List Char := "Read Sequence:tx1 gene=geneA(500 nt)".toList

/-- Report header line for transcript `tx2`. -/
def rsLineTx2 : List Char := "Read Sequence:tx2 gene=geneB(300 nt)".toList

/-- A `Forward:` block marker line. -/
def fwdLine : List Char := "Forward:".toList

/-- The line `Query: 3' ACGUACGUAC 5'`. -/
def qLineEx : List Char := "Query: 3".toList ++ [apos] ++ " ACGUACGUAC 5".toList ++ [apos]

/-- The line `Ref: 5' UGCAUGCAUG 3'`. -/
def rLineEx : List Char := "Ref: 5".toList ++ [apos] ++ " UGCAUGCAUG 3".toList ++ [apos]

/-- The C1 end-to-end report: one record for `tx1` with one forward block. -/
def reportC1 : List (List Char) := [rsLineTx1, fwdLine, qLineEx, rLineEx]

/-- Selection set `{tx1}` as a membership test. -/
def selTx1 (t : List Char) : Bool := t == "tx1".toList

/-- The expected C1 output line. -/
def outLineTx1 : List Char :=
  ("Read Sequence:tx1 gene=geneA(500 nt) - Complementary nucleotides in Seed: 7 "
    ++ "(Wobble pairings in Seed: 0)").toList

example : main_scan selTx1 reportC1 = [outLineTx1] := by decide

/-- The C2 boundary report: record `tx1` has a `Forward:` block whose
`Ref:` line never appears inside the record; record `tx2` is complete. -/
def reportC2 : List (List Char) := [rsLineTx1, fwdLine, qLineEx, rsLineTx2, fwdLine, qLineEx, rLineEx]

/-- The C2 report with the incomplete `tx1` record removed. -/
def reportC2absent : List (List Char) := [rsLineTx2, fwdLine, qLineEx, rLineEx]

/-- Selection set `{tx1, tx2}`. -/
def selTx12 (t : List Char) : Bool := t == "tx1".toList || t == "tx2".toList

/-- The output line the code emits for `tx2`'s complete block. -/
def outLineTx2 : List Char :=
  ("Read Sequence:tx2 gene=geneB(300 nt) - Complementary nucleotides in Seed: 7 "
    ++ "(Wobble pairings in Seed: 0)").toList

example : main_scan selTx12 reportC2 = [outLineTx1] := by decide
example : main_scan selTx12 reportC2absent = [outLineTx2] := by decide

/-!  Helper lemmas about the base-pair classification. -/

theorem pm_mem (x y : Char) :
    is_perfect_match x y = true ↔
      (toRNA x = 'A' ∧ toRNA y = 'U') ∨ (toRNA x = 'U' ∧ toRNA y = 'A') ∨
      (toRNA x = 'C' ∧ toRNA y = 'G') ∨ (toRNA x = 'G' ∧ toRNA y = 'C') := by
  rw [is_perfect_match, List.elem_iff]
  simp [complementary_pairs, Prod.ext_iff]

theorem wb_mem (x y : Char) :
    is_wobble_pair x y = true ↔
      (toRNA x = 'G' ∧ toRNA y = 'U') ∨ (toRNA x = 'U' ∧ toRNA y = 'G') := by
  rw [is_wobble_pair, List.elem_iff]
  simp [wobble_pair_list, Prod.ext_iff]

theorem pm_symm (x y : Char) : is_perfect_match x y = is_perfect_match y x := by
  rw [Bool.eq_iff_iff, pm_mem, pm_mem]
  constructor
  · rintro (⟨h1, h2⟩ | ⟨h1, h2⟩ | ⟨h1, h2⟩ | ⟨h1, h2⟩)
    · exact Or.inr (Or.inl ⟨h2, h1⟩)
    · exact Or.inl ⟨h2, h1⟩
    · exact Or.inr (Or.inr (Or.inr ⟨h2, h1⟩))
    · exact Or.inr (Or.inr (Or.inl ⟨h2, h1⟩))
  · rintro (⟨h1, h2⟩ | ⟨h1, h2⟩ | ⟨h1, h2⟩ | ⟨h1, h2⟩)
    · exact Or.inr (Or.inl ⟨h2, h1⟩)
    · exact Or.inl ⟨h2, h1⟩
    · exact Or.inr (Or.inr (Or.inr ⟨h2, h1⟩))
    · exact Or.inr (Or.inr (Or.inl ⟨h2, h1⟩))

theorem wb_symm (x y : Char) : is_wobble_pair x y = is_wobble_pair y x := by
  rw [Bool.eq_iff_iff, wb_mem, wb_mem]
  constructor
  · rintro (⟨h1, h2⟩ | ⟨h1, h2⟩)
    · exact Or.inr ⟨h2, h1⟩
    · exact Or.inl ⟨h2, h1⟩
  · rintro (⟨h1, h2⟩ | ⟨h1, h2⟩)
    · exact Or.inr ⟨h2, h1⟩
    · exact Or.inl ⟨h2, h1⟩

theorem pm_wb_disjoint (x y : Char) :
    is_perfect_match x y = true → is_wobble_pair x y = false := by
  intro h
  rw [pm_mem] at h
  rw [← Bool.not_eq_true, wb_mem]
  rcases h with ⟨h1, h2⟩ | ⟨h1, h2⟩ | ⟨h1, h2⟩ | ⟨h1, h2⟩ <;> rw [h1, h2] <;> decide

/-!  A compositional description of the dual-cursor scan.

The scan's space-skips advance one cursor at a time, so the pairs the
loop actually classifies are the positional pairs of the two sequences
with their space characters removed; on such a pair the loop body takes
one both-cursor step.  `foldPairs` is that per-pair loop body iterated
over the list of pairs, and `scan_eq_foldPairs` proves the equivalence. -/

/-- One both-cursor step of the scan per pair: update `miRNA_pos`,
then classify inside the seed window. -/
def foldPairs : List (Char × Char) → Nat → Nat → Nat → Nat × Nat
  | [], _, p, w => (p, w)
  | (a, b) :: t, pos, p, w =>
    let pos1 := if a != '-' then pos + 1 else pos
    if 2 ≤ pos1 ∧ pos1 ≤ 8 then
      if a == '-' then foldPairs t pos1 p w
      else if b == '-' then foldPairs t pos1 p w
      else if is_perfect_match a.toUpper b.toUpper then foldPairs t pos1 (p + 1) w
      else if is_wobble_pair a.toUpper b.toUpper then foldPairs t pos1 p (w + 1)
      else foldPairs t pos1 p w
    else foldPairs t pos1 p w

/-- The space-free positional pairs the scan classifies. -/
def alignedPairs (q r : List Char) : List (Char × Char) :=
  (q.filter (fun c => c != ' ')).zip (r.filter (fun c => c != ' '))

theorem scan_eq_foldPairs :
    ∀ (f : Nat) (q r : List Char) (pos p w : Nat), q.length + r.length ≤ f →
      scanLoopF f q r pos p w = foldPairs (alignedPairs q r) pos p w := by
  intro f
  induction f with
  | zero =>
    intro q r pos p w hf
    match q, r with
    | [], [] => rfl
    | [], _ :: _ => simp at hf
    | _ :: _, _ => simp at hf
  | succ f ih =>
    intro q r pos p w hf
    match q, r with
    | [], r => simp [scanLoopF, alignedPairs, foldPairs]
    | cq :: q, [] => simp [scanLoopF, alignedPairs, foldPairs]
    | cq :: q, cr :: r =>
      by_cases hq : cq = ' '
      · subst hq
        rw [show scanLoopF (f + 1) (' ' :: q) (cr :: r) pos p w
              = scanLoopF f q (cr :: r) pos p w from rfl]
        rw [ih q (cr :: r) pos p w (by simp at hf ⊢; omega)]
        simp [alignedPairs]
      · by_cases hr : cr = ' '
        · subst hr
          have h1 : scanLoopF (f + 1) (cq :: q) (' ' :: r) pos p w
              = scanLoopF f (cq :: q) r pos p w := by
            simp only [scanLoopF]
            rw [if_neg (by simp [hq])]
            simp
          rw [h1, ih (cq :: q) r pos p w (by simp at hf ⊢; omega)]
          simp [alignedPairs, hq]
        · have hq' : (cq == ' ') = false := by simp [hq]
          have hr' : (cr == ' ') = false := by simp [hr]
          have hrec : ∀ pos' p' w', scanLoopF f q r pos' p' w'
              = foldPairs (alignedPairs q r) pos' p' w' :=
            fun pos' p' w' => ih q r pos' p' w' (by simp at hf ⊢; omega)
          have hpairs : alignedPairs (cq :: q) (cr :: r)
              = (cq, cr) :: alignedPairs q r := by
            simp [alignedPairs, List.filter_cons, hq, hr]
          rw [hpairs]
          simp only [scanLoopF, foldPairs, hq', hr', Bool.false_eq_true, if_false,
            Bool.or_false, hrec]

/-- Each classified pair annotated with the `miRNA_pos` value used for
its seed-window check: the running count of non-gap query characters
(spaces have already been removed by `alignedPairs`). -/
def withPos : Nat → List (Char × Char) → List (Nat × Char × Char)
  | _, [] => []
  | pos, (a, b) :: t =>
    let pos1 := if a != '-' then pos + 1 else pos
    (pos1, a, b) :: withPos pos1 t

def seedHit (x : Nat × Char × Char) : Bool :=
  decide (2 ≤ x.1) && decide (x.1 ≤ 8) && x.2.1 != '-' && x.2.2 != '-'

def seedPerfectCount (l : List (Nat × Char × Char)) : Nat :=
  (l.filter (fun x => seedHit x && is_perfect_match x.2.1.toUpper x.2.2.toUpper)).length

def seedWobbleCount (l : List (Nat × Char × Char)) : Nat :=
  (l.filter (fun x => seedHit x && is_wobble_pair x.2.1.toUpper x.2.2.toUpper)).length

theorem foldPairs_eq_spec : ∀ (ps : List (Char × Char)) (pos p w : Nat),
    foldPairs ps pos p w =
      (p + seedPerfectCount (withPos pos ps), w + seedWobbleCount (withPos pos ps)) := by
  intro ps
  induction ps with
  | nil =>
    intro pos p w
    simp [foldPairs, withPos, seedPerfectCount, seedWobbleCount]
  | cons ab t ih =>
    obtain ⟨a, b⟩ := ab
    intro pos p w
    set pos1 := if a != '-' then pos + 1 else pos with hpos1
    have hwp : withPos pos ((a, b) :: t) = (pos1, a, b) :: withPos pos1 t := by
      simp [withPos, hpos1]
    rw [hwp]
    by_cases hwin : 2 ≤ pos1 ∧ pos1 ≤ 8
    · by_cases ha : a = '-'
      · have hhit : seedHit (pos1, a, b) = false := by simp [seedHit, ha]
        have : foldPairs ((a, b) :: t) pos p w = foldPairs t pos1 p w := by
          rw [foldPairs]
          rw [if_pos hwin, if_pos (by simp [ha])]
        rw [this, ih]
        simp [seedPerfectCount, seedWobbleCount, List.filter_cons, hhit]
      · by_cases hb : b = '-'
        · have hhit : seedHit (pos1, a, b) = false := by simp [seedHit, hb]
          have : foldPairs ((a, b) :: t) pos p w = foldPairs t pos1 p w := by
            rw [foldPairs]
            rw [if_pos hwin, if_neg (by simp [ha]), if_pos (by simp [hb])]
          rw [this, ih]
          simp [seedPerfectCount, seedWobbleCount, List.filter_cons, hhit]
        · have hhit : seedHit (pos1, a, b) = true := by
            simp [seedHit, ha, hb, hwin.1, hwin.2]
          by_cases hpm : is_perfect_match a.toUpper b.toUpper = true
          · have hwb : is_wobble_pair a.toUpper b.toUpper = false :=
              pm_wb_disjoint _ _ hpm
            have : foldPairs ((a, b) :: t) pos p w = foldPairs t pos1 (p + 1) w := by
              rw [foldPairs]
              rw [if_pos hwin, if_neg (by simp [ha]), if_neg (by simp [hb]), if_pos hpm]
            rw [this, ih]
            have hPc : seedPerfectCount ((pos1, a, b) :: withPos pos1 t)
                = seedPerfectCount (withPos pos1 t) + 1 := by
              simp [seedPerfectCount, List.filter_cons, hhit, hpm]
            have hWc : seedWobbleCount ((pos1, a, b) :: withPos pos1 t)
                = seedWobbleCount (withPos pos1 t) := by
              simp [seedWobbleCount, List.filter_cons, hhit, hwb]
            rw [hPc, hWc]
            simp [Prod.ext_iff]
            omega
          · by_cases hwb : is_wobble_pair a.toUpper b.toUpper = true
            · have : foldPairs ((a, b) :: t) pos p w = foldPairs t pos1 p (w + 1) := by
                rw [foldPairs]
                rw [if_pos hwin, if_neg (by simp [ha]), if_neg (by simp [hb]),
                  if_neg hpm, if_pos hwb]
              rw [this, ih]
              have hPc : seedPerfectCount ((pos1, a, b) :: withPos pos1 t)
                  = seedPerfectCount (withPos pos1 t) := by
                simp [seedPerfectCount, List.filter_cons, hhit, eq_false_of_ne_true hpm]
              have hWc : seedWobbleCount ((pos1, a, b) :: withPos pos1 t)
                  = seedWobbleCount (withPos pos1 t) + 1 := by
                simp [seedWobbleCount, List.filter_cons, hhit, hwb]
              rw [hPc, hWc]
              simp [Prod.ext_iff]
              omega
            · have : foldPairs ((a, b) :: t) pos p w = foldPairs t pos1 p w := by
                rw [foldPairs]
                rw [if_pos hwin, if_neg (by simp [ha]), if_neg (by simp [hb]),
                  if_neg hpm, if_neg hwb]
              rw [this, ih]
              simp [seedPerfectCount, seedWobbleCount, List.filter_cons, hhit,
                eq_false_of_ne_true hpm, eq_false_of_ne_true hwb]
    · have hhit : seedHit (pos1, a, b) = false := by
        simp only [seedHit]
        rcases Nat.lt_or_ge pos1 2 with h | h
        · simp [Nat.not_le.mpr h]
        · have h8 : ¬ pos1 ≤ 8 := fun hc => hwin ⟨h, hc⟩
          simp [h8]
      have : foldPairs ((a, b) :: t) pos p w = foldPairs t pos1 p w := by
        rw [foldPairs]
        rw [if_neg hwin]
      rw [this, ih]
      simp [seedPerfectCount, seedWobbleCount, List.filter_cons, hhit]

theorem foldPairs_swap : ∀ (ps : List (Char × Char)) (pos p w : Nat),
    (∀ x ∈ ps, x.1 ≠ '-' ∧ x.2 ≠ '-') →
    foldPairs (ps.map Prod.swap) pos p w = foldPairs ps pos p w := by
  intro ps
  induction ps with
  | nil => intro pos p w _; rfl
  | cons ab t ih =>
    obtain ⟨a, b⟩ := ab
    intro pos p w h
    have ha : a ≠ '-' := (h (a, b) (List.mem_cons_self _ _)).1
    have hb : b ≠ '-' := (h (a, b) (List.mem_cons_self _ _)).2
    have ht : ∀ x ∈ t, x.1 ≠ '-' ∧ x.2 ≠ '-' := fun x hx => h x (List.mem_cons_of_mem _ hx)
    have ha' : (a != '-') = true := by simp [ha]
    have hb' : (b != '-') = true := by simp [hb]
    have ha2 : (a == '-') = false := by simp [ha]
    have hb2 : (b == '-') = false := by simp [hb]
    rw [List.map_cons]
    show foldPairs ((b, a) :: t.map Prod.swap) pos p w = foldPairs ((a, b) :: t) pos p w
    rw [foldPairs, foldPairs]
    simp only [ha', hb', ha2, hb2, if_true, Bool.false_eq_true, if_false,
      pm_symm b.toUpper a.toUpper, wb_symm b.toUpper a.toUpper]
    by_cases hwin : 2 ≤ pos + 1 ∧ pos + 1 ≤ 8
    · rw [if_pos hwin, if_pos hwin]
      split
      · exact ih (pos + 1) (p + 1) w ht
      · split
        · exact ih (pos + 1) p (w + 1) ht
        · exact ih (pos + 1) p w ht
    · rw [if_neg hwin, if_neg hwin]
      exact ih (pos + 1) p w ht

theorem foldPairs_done : ∀ (ps : List (Char × Char)) (pos p w : Nat), 8 ≤ pos →
    foldPairs ps pos p w = (p, w) := by
  intro ps
  induction ps with
  | nil => intro pos p w _; rfl
  | cons ab t ih =>
    obtain ⟨a, b⟩ := ab
    intro pos p w hpos
    rw [foldPairs]
    by_cases ha : a = '-'
    · have ha' : (a != '-') = false := by simp [ha]
      have ha2 : (a == '-') = true := by simp [ha]
      simp only [ha', ha2, Bool.false_eq_true, if_false, if_true]
      by_cases hwin : 2 ≤ pos ∧ pos ≤ 8
      · rw [if_pos hwin]; exact ih pos p w hpos
      · rw [if_neg hwin]; exact ih pos p w hpos
    · have ha' : (a != '-') = true := by simp [ha]
      simp only [ha', if_true]
      have hwin : ¬ (2 ≤ pos + 1 ∧ pos + 1 ≤ 8) := by omega
      rw [if_neg hwin]
      exact ih (pos + 1) p w (by omega)

def posAfter (ps : List (Char × Char)) (pos : Nat) : Nat :=
  pos + (ps.filter (fun x => x.1 != '-')).length

theorem foldPairs_append : ∀ (l1 l2 : List (Char × Char)) (pos p w : Nat),
    foldPairs (l1 ++ l2) pos p w =
      foldPairs l2 (posAfter l1 pos) (foldPairs l1 pos p w).1 (foldPairs l1 pos p w).2 := by
  intro l1
  induction l1 with
  | nil => intro l2 pos p w; simp [posAfter, foldPairs]
  | cons ab t ih =>
    obtain ⟨a, b⟩ := ab
    intro l2 pos p w
    have hpa : posAfter ((a, b) :: t) pos = posAfter t (if (a != '-') = true then pos + 1 else pos) := by
      simp only [posAfter, List.filter_cons]
      by_cases ha : (a != '-') = true
      · rw [if_pos ha, if_pos ha]; simp; omega
      · rw [if_neg ha, if_neg (by simpa using ha)]
    rw [List.cons_append, foldPairs, foldPairs, hpa]
    by_cases hwin : 2 ≤ (if (a != '-') = true then pos + 1 else pos) ∧
        (if (a != '-') = true then pos + 1 else pos) ≤ 8
    · rw [if_pos hwin, if_pos hwin]
      split
      · exact ih l2 _ p w
      · split
        · exact ih l2 _ p w
        · split
          · exact ih l2 _ (p + 1) w
          · split
            · exact ih l2 _ p (w + 1)
            · exact ih l2 _ p w
    · rw [if_neg hwin, if_neg hwin]
      exact ih l2 _ p w

theorem foldPairs_perfect_run : ∀ (ps : List (Char × Char)) (pos p w : Nat),
    (∀ x ∈ ps, x.1 ≠ '-' ∧ x.2 ≠ '-' ∧ is_perfect_match x.1.toUpper x.2.toUpper = true) →
    1 ≤ pos →
    foldPairs ps pos p w = (p + min ps.length (8 - pos), w) := by
  intro ps
  induction ps with
  | nil => intro pos p w _ _; simp [foldPairs]
  | cons ab t ih =>
    obtain ⟨a, b⟩ := ab
    intro pos p w h hpos
    have ha : a ≠ '-' := (h (a, b) (List.mem_cons_self _ _)).1
    have hb : b ≠ '-' := (h (a, b) (List.mem_cons_self _ _)).2.1
    have hpm : is_perfect_match a.toUpper b.toUpper = true := (h (a, b) (List.mem_cons_self _ _)).2.2
    have ht : ∀ x ∈ t, x.1 ≠ '-' ∧ x.2 ≠ '-' ∧ is_perfect_match x.1.toUpper x.2.toUpper = true :=
      fun x hx => h x (List.mem_cons_of_mem _ hx)
    have ha' : (a != '-') = true := by simp [ha]
    have ha2 : (a == '-') = false := by simp [ha]
    have hb2 : (b == '-') = false := by simp [hb]
    rw [foldPairs]
    simp only [ha', ha2, hb2, if_true, Bool.false_eq_true, if_false, hpm]
    by_cases hwin : 2 ≤ pos + 1 ∧ pos + 1 ≤ 8
    · rw [if_pos hwin, ih (pos + 1) (p + 1) w ht (by omega)]
      have : p + 1 + min t.length (8 - (pos + 1)) = p + min ((a, b) :: t).length (8 - pos) := by
        simp only [List.length_cons]
        omega
      rw [this]
    · rw [if_neg hwin, ih (pos + 1) p w ht (by omega)]
      have : min t.length (8 - (pos + 1)) = 0 := by omega
      rw [this]
      have : min ((a, b) :: t).length (8 - pos) = 0 := by
        simp only [List.length_cons]
        omega
      rw [this]

theorem foldPairs_bound : ∀ (ps : List (Char × Char)) (pos p w : Nat),
    (foldPairs ps pos p w).1 + (foldPairs ps pos p w).2 ≤ p + w + (8 - max pos 1) := by
  intro ps
  induction ps with
  | nil => intro pos p w; simp [foldPairs]
  | cons ab t ih =>
    obtain ⟨a, b⟩ := ab
    intro pos p w
    rw [foldPairs]
    by_cases ha : a = '-'
    · have ha' : (a != '-') = false := by simp [ha]
      have ha2 : (a == '-') = true := by simp [ha]
      simp only [ha', ha2, Bool.false_eq_true, if_false, if_true]
      by_cases hwin : 2 ≤ pos ∧ pos ≤ 8
      · rw [if_pos hwin]; exact ih pos p w
      · rw [if_neg hwin]; exact ih pos p w
    · have ha' : (a != '-') = true := by simp [ha]
      simp only [ha', if_true]
      by_cases hwin : 2 ≤ pos + 1 ∧ pos + 1 ≤ 8
      · rw [if_pos hwin]
        by_cases hb : b = '-'
        · rw [if_neg (by simp [ha]), if_pos (by simp [hb])]
          calc (foldPairs t (pos + 1) p w).1 + (foldPairs t (pos + 1) p w).2
              ≤ p + w + (8 - max (pos + 1) 1) := ih (pos + 1) p w
            _ ≤ p + w + (8 - max pos 1) := by omega
        · rw [if_neg (by simp [ha]), if_neg (by simp [hb])]
          by_cases hpm : is_perfect_match a.toUpper b.toUpper = true
          · rw [if_pos hpm]
            calc (foldPairs t (pos + 1) (p + 1) w).1 + (foldPairs t (pos + 1) (p + 1) w).2
                ≤ p + 1 + w + (8 - max (pos + 1) 1) := ih (pos + 1) (p + 1) w
              _ ≤ p + w + (8 - max pos 1) := by omega
          · rw [if_neg hpm]
            by_cases hwb : is_wobble_pair a.toUpper b.toUpper = true
            · rw [if_pos hwb]
              calc (foldPairs t (pos + 1) p (w + 1)).1 + (foldPairs t (pos + 1) p (w + 1)).2
                  ≤ p + (w + 1) + (8 - max (pos + 1) 1) := ih (pos + 1) p (w + 1)
                _ ≤ p + w + (8 - max pos 1) := by omega
            · rw [if_neg hwb]
              calc (foldPairs t (pos + 1) p w).1 + (foldPairs t (pos + 1) p w).2
                  ≤ p + w + (8 - max (pos + 1) 1) := ih (pos + 1) p w
                _ ≤ p + w + (8 - max pos 1) := by omega
      · rw [if_neg hwin]
        calc (foldPairs t (pos + 1) p w).1 + (foldPairs t (pos + 1) p w).2
            ≤ p + w + (8 - max (pos + 1) 1) := ih (pos + 1) p w
          _ ≤ p + w + (8 - max pos 1) := by omega

/-- `process_alignment` expressed through `foldPairs`: the exact fuel the
source loop is entitled to is the sum of the two sequence lengths. -/
theorem process_eq_foldPairs (ql rl : List Char) :
    process_alignment ql rl =
      foldPairs (alignedPairs (normSeq queryLabel ql).reverse (normSeq refLabel rl).reverse)
        0 0 0 :=
  scan_eq_foldPairs _ _ _ 0 0 0 (Nat.le_refl _)

/-- If no line of `ls` satisfies `p`, then no line after a `findLine`
hit for another predicate satisfies `p` either. -/
theorem findLine_none_after (p q : List Char → Bool) :
    ∀ (ls : List (List Char)) (x : List Char) (rest : List (List Char)),
      findLine q ls = some (x, rest) → findLine p ls = none → findLine p rest = none := by
  intro ls
  induction ls with
  | nil => intro x rest h; simp [findLine] at h
  | cons l ls ih =>
    intro x rest hq hp
    rw [findLine] at hq hp
    by_cases hpl : p l = true
    · rw [if_pos hpl] at hp; exact absurd hp (by simp)
    · rw [if_neg hpl] at hp
      by_cases hql : q l = true
      · rw [if_pos hql] at hq
        injection hq with hq
        injection hq with _ hrest
        rw [← hrest]; exact hp
      · rw [if_neg hql] at hq
        exact ih x rest hq hp

/-- Every output line a record contributes is a formatted line carrying
that record's transcript, gene name and gene length. -/
theorem processRecordF_outputs :
    ∀ (fuel : Nat) (t g l : List Char) (ls : List (List Char)) (out : List Char),
      out ∈ (processRecordF fuel t g l ls).1 → ∃ p w, out = formatLine t g l p w := by
  intro fuel
  induction fuel with
  | zero => intro t g l ls out h; simp [processRecordF] at h
  | succ fuel ih =>
    intro t g l ls out h
    match ls with
    | [] => simp [processRecordF] at h
    | line :: rest =>
      simp only [processRecordF] at h
      by_cases h1 : hasPre rsMarker line = true
      · rw [if_pos h1] at h; simp at h
      · rw [if_neg h1] at h
        by_cases h2 : (containsSub fwdMarker line || containsSub revMarker line) = true
        · rw [if_pos h2] at h
          rcases hfq : findLine queryHere (line :: rest) with _ | ⟨ql, rest1⟩
          · rw [hfq] at h; simp at h
          · rw [hfq] at h
            simp only [] at h
            rcases hfr : findLine refHere rest1 with _ | ⟨rl, rest2⟩
            · rw [hfr] at h; simp at h
            · rw [hfr] at h
              simp only [] at h
              simp only [List.mem_cons] at h
              rcases h with h | h
              · exact ⟨_, _, h⟩
              · exact ih t g l rest2 out h
        · rw [if_neg h2] at h
          exact ih t g l rest out h

/-- Every line the scanner outputs is a formatted line for a selected
transcript. -/
theorem mainLoopF_outputs :
    ∀ (fuel : Nat) (sel : List Char → Bool) (ls : List (List Char)) (out : List Char),
      out ∈ mainLoopF fuel sel ls →
      ∃ t g l p w, sel t = true ∧ out = formatLine t g l p w := by
  intro fuel
  induction fuel with
  | zero => intro sel ls out h; simp [mainLoopF] at h
  | succ fuel ih =>
    intro sel ls out h
    match ls with
    | [] => simp [mainLoopF] at h
    | line :: rest =>
      simp only [mainLoopF] at h
      by_cases h1 : hasPre rsMarker line = true
      · rw [if_pos h1] at h
        rcases hrs : searchReadSeq line with _ | transcript
        · rw [hrs] at h; simp only [] at h; exact ih sel rest out h
        · rw [hrs] at h
          simp only [] at h
          by_cases hsel : sel transcript = true
          · rw [if_pos hsel] at h
            rcases List.mem_append.mp h with h | h
            · obtain ⟨p, w, hout⟩ := processRecordF_outputs _ _ _ _ _ _ h
              exact ⟨transcript, _, _, p, w, hsel, hout⟩
            · exact ih sel _ out h
          · rw [if_neg hsel] at h
            exact ih sel rest out h
      · rw [if_neg h1] at h
        exact ih sel rest out h

/-- Claim C1: for the report consisting of the header line
"Read Sequence:tx1 gene=geneA(500 nt)", a "Forward:" line, the line
"Query: 3-prime ACGUACGUAC 5-prime" and the line
"Ref: 5-prime UGCAUGCAUG 3-prime" (with the orientation markers written
with an apostrophe in the real file), with tx1 selected, the program
emits exactly the single output line
"Read Sequence:tx1 gene=geneA(500 nt) - Complementary nucleotides in
Seed: 7 (Wobble pairings in Seed: 0)". -/
theorem claim_c1 : main_scan selTx1 reportC1 = [outLineTx1] := by decide

/-- Claim C2 counterexample: in a report where the selected record tx1
has a Forward block whose Ref line never appears before the next
Read Sequence line, the scanner does NOT skip the block: it consumes the
Ref line of the following tx2 record across the record boundary, emits
an output line for the incomplete tx1 block, and never processes tx2.
Removing the incomplete record changes the output to the tx2 line, so
subsequent records are not processed as if the incomplete record were
absent. -/
theorem claim_c2_counterexample :
    main_scan selTx12 reportC2 = [outLineTx1] ∧
    main_scan selTx12 reportC2absent = [outLineTx2] ∧
    outLineTx1 ≠ outLineTx2 ∧
    hasPre "Read Sequence:tx1".toList outLineTx1 = true := by
  refine ⟨by decide, by decide, by decide, by decide⟩

/-- Claim C2 (amended): a block is skipped with no output only when no
line whose stripped text starts with "Ref:" appears anywhere in the rest
of the input (not merely within the record): in that case the record
processor emits nothing for the block and the scan stops at end of
input. -/
theorem claim_c2_amended (fuel : Nat) (transcript gname glen line : List Char)
    (rest : List (List Char))
    (hmark : (containsSub fwdMarker line || containsSub revMarker line) = true)
    (hnotrs : hasPre rsMarker line = false)
    (hnoref : findLine refHere (line :: rest) = none) :
    processRecordF (fuel + 1) transcript gname glen (line :: rest) = ([], []) := by
  simp only [processRecordF]
  rw [if_neg (by simp [hnotrs]), if_pos hmark]
  rcases hfq : findLine queryHere (line :: rest) with _ | ⟨ql, rest1⟩
  · simp only [hfq]
  · have hnone : findLine refHere rest1 = none :=
      findLine_none_after refHere queryHere _ _ _ hfq hnoref
    simp only [hfq, hnone]

/-- Witness for the amended C2 claim at a concrete incomplete block. -/
theorem claim_c2_amended_witness :
    (containsSub fwdMarker fwdLine || containsSub revMarker fwdLine) = true ∧
    hasPre rsMarker fwdLine = false ∧
    findLine refHere (fwdLine :: [qLineEx]) = none ∧
    processRecordF 5 "tx1".toList "geneA".toList "500".toList (fwdLine :: [qLineEx])
      = ([], []) :=
  ⟨by decide, by decide, by decide,
    claim_c2_amended 4 "tx1".toList "geneA".toList "500".toList fwdLine [qLineEx]
      (by decide) (by decide) (by decide)⟩

/-- Claim C3 counterexample: swapping the two input lines changes the
counts.  With query AAAAAAAA-A and ref UUUUUUUUUU the counter returns
7 perfect matches, but with the lines swapped it returns 6: the gap
character drives the position window only when it sits in the query
line, so swap-invariance fails even though the base-pair classification
itself is symmetric. -/
theorem claim_c3_counterexample :
    process_alignment "AAAAAAAA-A".toList "UUUUUUUUUU".toList = (7, 0) ∧
    process_alignment "UUUUUUUUUU".toList "AAAAAAAA-A".toList = (6, 0) ∧
    process_alignment "AAAAAAAA-A".toList "UUUUUUUUUU".toList ≠
      process_alignment "UUUUUUUUUU".toList "AAAAAAAA-A".toList := by
  refine ⟨by decide, by decide, by decide⟩

/-- Claim C3 (amended): the counter is swap-invariant on line pairs for
which the two label-stripping pipelines agree on each line (for example
lines that carry neither a "Query:" nor a "Ref:" label) and whose
normalized sequences contain no gap character; in general a gap shifts
the seed window only when it is in the query, so swapping can change
the counts. -/
theorem claim_c3_amended (ql rl : List Char)
    (hql : normSeq queryLabel ql = normSeq refLabel ql)
    (hrl : normSeq queryLabel rl = normSeq refLabel rl)
    (hgq : ∀ c ∈ normSeq queryLabel ql, c ≠ '-')
    (hgr : ∀ c ∈ normSeq refLabel rl, c ≠ '-') :
    process_alignment ql rl = process_alignment rl ql := by
  rw [process_eq_foldPairs ql rl, process_eq_foldPairs rl ql, hrl, ← hql]
  have hswap : alignedPairs (normSeq refLabel rl).reverse (normSeq queryLabel ql).reverse
      = (alignedPairs (normSeq queryLabel ql).reverse
          (normSeq refLabel rl).reverse).map Prod.swap := by
    rw [alignedPairs, alignedPairs, List.zip_swap]
  rw [hswap, foldPairs_swap]
  intro x hx
  obtain ⟨a, b⟩ := x
  obtain ⟨ha, hb⟩ := List.of_mem_zip hx
  constructor
  · exact hgq a (List.mem_reverse.mp (List.mem_filter.mp ha).1)
  · exact hgr b (List.mem_reverse.mp (List.mem_filter.mp hb).1)

/-- Witness for the amended C3 claim on concrete label-free gap-free
lines. -/
theorem claim_c3_amended_witness :
    normSeq queryLabel "ACGUACGUAC".toList = normSeq refLabel "ACGUACGUAC".toList ∧
    (∀ c ∈ normSeq queryLabel "ACGUACGUAC".toList, c ≠ '-') ∧
    process_alignment "ACGUACGUAC".toList "UGCAUGCAUG".toList
      = process_alignment "UGCAUGCAUG".toList "ACGUACGUAC".toList :=
  ⟨by decide, by decide,
    claim_c3_amended "ACGUACGUAC".toList "UGCAUGCAUG".toList
      (by decide) (by decide) (by decide) (by decide)⟩

/-- Claim C4: the perfect-complement and wobble predicates are symmetric
in their two arguments, and lowercase letters and T are treated as their
uppercase and U equivalents in the first argument (and hence, by the
symmetry, in either argument). -/
theorem claim_c4 :
    (∀ x y : Char, is_perfect_match x y = is_perfect_match y x) ∧
    (∀ x y : Char, is_wobble_pair x y = is_wobble_pair y x) ∧
    (∀ y : Char,
      is_perfect_match 'a' y = is_perfect_match 'A' y ∧
      is_perfect_match 'c' y = is_perfect_match 'C' y ∧
      is_perfect_match 'g' y = is_perfect_match 'G' y ∧
      is_perfect_match 'u' y = is_perfect_match 'U' y ∧
      is_perfect_match 't' y = is_perfect_match 'U' y ∧
      is_perfect_match 'T' y = is_perfect_match 'U' y ∧
      is_wobble_pair 'g' y = is_wobble_pair 'G' y ∧
      is_wobble_pair 'u' y = is_wobble_pair 'U' y ∧
      is_wobble_pair 't' y = is_wobble_pair 'U' y ∧
      is_wobble_pair 'T' y = is_wobble_pair 'U' y) :=
  ⟨pm_symm, wb_symm, fun _ => ⟨rfl, rfl, rfl, rfl, rfl, rfl, rfl, rfl, rfl, rfl⟩⟩

/-- Claim C5: if the normalized reversed query and ref sequences contain
no gaps and no internal spaces, both cover the full seed region
(length at least 8), and the bases aligned at miRNA positions 2 through
8 (indices 1 through 7 after reversal) are all perfect complements, the
counter returns 7 perfect matches and 0 wobble pairs. -/
theorem claim_c5 (ql rl : List Char)
    (hQ : ((normSeq queryLabel ql).reverse).all (fun c => c != '-' && c != ' ') = true)
    (hR : ((normSeq refLabel rl).reverse).all (fun c => c != '-' && c != ' ') = true)
    (hlenQ : 8 ≤ (normSeq queryLabel ql).reverse.length)
    (hlenR : 8 ≤ (normSeq refLabel rl).reverse.length)
    (hseed : ((((normSeq queryLabel ql).reverse.drop 1).take 7).zip
        (((normSeq refLabel rl).reverse.drop 1).take 7)).all
        (fun x => is_perfect_match x.1.toUpper x.2.toUpper) = true) :
    process_alignment ql rl = (7, 0) := by
  rw [process_eq_foldPairs]
  set Q := (normSeq queryLabel ql).reverse with hQdef
  set R := (normSeq refLabel rl).reverse with hRdef
  have hQA : ∀ c ∈ Q, (c != '-' && c != ' ') = true := List.all_eq_true.mp hQ
  have hRA : ∀ c ∈ R, (c != '-' && c != ' ') = true := List.all_eq_true.mp hR
  have hzip : alignedPairs Q R = Q.zip R := by
    rw [alignedPairs,
      List.filter_eq_self.mpr (fun a ha => (Bool.and_eq_true_iff.mp (hQA a ha)).2),
      List.filter_eq_self.mpr (fun a ha => (Bool.and_eq_true_iff.mp (hRA a ha)).2)]
  rw [hzip]
  obtain ⟨q0, Q', hQc⟩ : ∃ a l, Q = a :: l := by
    cases hc : Q with
    | nil => rw [hc] at hlenQ; simp at hlenQ
    | cons a l => exact ⟨a, l, rfl⟩
  obtain ⟨r0, R', hRc⟩ : ∃ a l, R = a :: l := by
    cases hc : R with
    | nil => rw [hc] at hlenR; simp at hlenR
    | cons a l => exact ⟨a, l, rfl⟩
  have hq0 : (q0 != '-') = true :=
    (Bool.and_eq_true_iff.mp (hQA q0 (by rw [hQc]; exact List.mem_cons_self _ _))).1
  rw [hQc, hRc, List.zip_cons_cons, foldPairs]
  simp only [hq0, if_true]
  rw [if_neg (by omega)]
  have hsplit : Q'.zip R' = (Q'.zip R').take 7 ++ (Q'.zip R').drop 7 :=
    (List.take_append_drop _ _).symm
  have hTz : (Q'.zip R').take 7 = (Q'.take 7).zip (R'.take 7) := List.take_zipWith
  have hQlen : 7 ≤ Q'.length := by rw [hQc] at hlenQ; simp at hlenQ; omega
  have hRlen : 7 ≤ R'.length := by rw [hRc] at hlenR; simp at hlenR; omega
  have hTlen : ((Q'.zip R').take 7).length = 7 := by
    rw [List.length_take, List.length_zip]
    omega
  have hseedT : ∀ x ∈ (Q'.zip R').take 7,
      is_perfect_match x.1.toUpper x.2.toUpper = true := by
    have hd1 : Q.drop 1 = Q' := by rw [hQc]; rfl
    have hd2 : R.drop 1 = R' := by rw [hRc]; rfl
    rw [hd1, hd2] at hseed
    rw [hTz]
    exact List.all_eq_true.mp hseed
  have hTall : ∀ x ∈ (Q'.zip R').take 7,
      x.1 ≠ '-' ∧ x.2 ≠ '-' ∧ is_perfect_match x.1.toUpper x.2.toUpper = true := by
    intro x hx
    obtain ⟨a, b⟩ := x
    have hmem : (a, b) ∈ Q'.zip R' := List.take_subset _ _ hx
    obtain ⟨haQ, hbR⟩ := List.of_mem_zip hmem
    have h1 := hQA a (by rw [hQc]; exact List.mem_cons_of_mem _ haQ)
    have h2 := hRA b (by rw [hRc]; exact List.mem_cons_of_mem _ hbR)
    refine ⟨?_, ?_, hseedT _ hx⟩
    · simpa using (Bool.and_eq_true_iff.mp h1).1
    · simpa using (Bool.and_eq_true_iff.mp h2).1
  rw [hsplit, foldPairs_append,
    foldPairs_perfect_run _ 1 0 0 hTall (by omega)]
  have hpa : posAfter ((Q'.zip R').take 7) 1 = 8 := by
    rw [posAfter,
      List.filter_eq_self.mpr (fun x hx => by simp [(hTall x hx).1]),
      hTlen]
  rw [hpa, foldPairs_done _ 8 _ _ (Nat.le_refl 8), hTlen]
  simp

/-- Claim C7: the counter classifies exactly the space-free positional
pairs of the normalized reversed sequences whose annotated miRNA
position (the running count of non-gap query characters, spaces
removed) lies in the seed window 2..8 and whose two characters are both
non-gaps; the returned counts are the numbers of such pairs that are
perfect matches resp. wobble pairs. -/
theorem claim_c7 (ql rl : List Char) :
    process_alignment ql rl =
      (seedPerfectCount (withPos 0 (alignedPairs (normSeq queryLabel ql).reverse
          (normSeq refLabel rl).reverse)),
       seedWobbleCount (withPos 0 (alignedPairs (normSeq queryLabel ql).reverse
          (normSeq refLabel rl).reverse))) := by
  rw [process_eq_foldPairs, foldPairs_eq_spec]
  simp

/-- Claim C8: the dual-cursor scan terminates within
len(query) + len(ref) iterations: any fuel at least that bound computes
the same result, so process_alignment is a total function of its two
arguments. -/
theorem claim_c8 (f : Nat) (q r : List Char) (pos p w : Nat)
    (hf : q.length + r.length ≤ f) :
    scanLoopF f q r pos p w = scanLoopF (q.length + r.length) q r pos p w := by
  rw [scan_eq_foldPairs f q r pos p w hf,
    scan_eq_foldPairs (q.length + r.length) q r pos p w (Nat.le_refl _)]

/-- Witness for C8: extra fuel does not change the result on a concrete
input. -/
theorem claim_c8_witness :
    "AU".toList.length + "UA".toList.length ≤ 10 ∧
    scanLoopF 10 "AU".toList "UA".toList 0 0 0
      = scanLoopF ("AU".toList.length + "UA".toList.length) "AU".toList "UA".toList 0 0 0 :=
  ⟨by decide, claim_c8 10 "AU".toList "UA".toList 0 0 0 (by decide)⟩

/-- Claim C9: the two counts returned by the counter always sum to at
most 7, the width of the seed window. -/
theorem claim_c9 (ql rl : List Char) :
    (process_alignment ql rl).1 + (process_alignment ql rl).2 ≤ 7 := by
  rw [process_eq_foldPairs]
  have h := foldPairs_bound
    (alignedPairs (normSeq queryLabel ql).reverse (normSeq refLabel rl).reverse) 0 0 0
  omega

/-- Claim C10: no pair of bases is both a perfect match and a wobble
pair, and one classification step of the scan (a single-character query
against a single-character ref) increments the two counters by at most
one in total, never both. -/
theorem claim_c10 :
    (∀ x y : Char, ¬ (is_perfect_match x y = true ∧ is_wobble_pair x y = true)) ∧
    (∀ (a b : Char) (pos p w : Nat),
      (scanLoopF 2 [a] [b] pos p w).1 + (scanLoopF 2 [a] [b] pos p w).2 ≤ p + w + 1) := by
  constructor
  · intro x y hxy
    rw [pm_wb_disjoint x y hxy.1] at hxy
    exact Bool.false_ne_true hxy.2
  · intro a b pos p w
    rw [scan_eq_foldPairs 2 [a] [b] pos p w (by simp)]
    rw [alignedPairs]
    by_cases ha : a = ' '
    · simp [ha, foldPairs]
    · by_cases hb : b = ' '
      · simp [ha, hb, foldPairs]
      · simp only [List.filter_cons, List.filter_nil]
        rw [if_pos (by simp [ha]), if_pos (by simp [hb]), List.zip_cons_cons,
          List.zip_nil_right, foldPairs]
        simp only [foldPairs]
        repeat' split
        all_goals simp
        all_goals omega

/-- Witness for C5 on a concrete fully complementary pair. -/
theorem claim_c5_witness :
    (((normSeq queryLabel "ACGUACGUAC".toList).reverse).all
        (fun c => c != '-' && c != ' ') = true) ∧
    8 ≤ (normSeq queryLabel "ACGUACGUAC".toList).reverse.length ∧
    process_alignment "ACGUACGUAC".toList "UGCAUGCAUG".toList = (7, 0) :=
  ⟨by decide, by decide,
    claim_c5 "ACGUACGUAC".toList "UGCAUGCAUG".toList
      (by decide) (by decide) (by decide) (by decide) (by decide)⟩

/-- Claim C6: every output line the program emits is a formatted result
line for a selected transcript, so a record whose transcript id is not
in the selected set contributes no output line, whatever its content. -/
theorem claim_c6 (sel : List Char → Bool) (lines : List (List Char)) (out : List Char)
    (h : out ∈ main_scan sel lines) :
    ∃ t g l p w, sel t = true ∧ out = formatLine t g l p w :=
  mainLoopF_outputs (lines.length + 1) sel lines out h

/-- Witness for C6 on the concrete C1 report. -/
theorem claim_c6_witness :
    outLineTx1 ∈ main_scan selTx1 reportC1 ∧
    (∃ t g l p w, selTx1 t = true ∧ outLineTx1 = formatLine t g l p w) :=
  ⟨by decide, claim_c6 selTx1 reportC1 outLineTx1 (by decide)⟩
